import Mathlib

/-!
Verification of the search, filter-state and ephemeral-delivery engine of the
`black_noir_v2` repository (`src/scrapper/scraper.js`, `src/index.js`).

JavaScript strings are embedded as `List Char`; the MongoDB catalog collection
is embedded as a `List FileRec` already in descending-recency (`_id` descending)
order, so `find(pred).sort({_id:-1}).skip(a).limit(b)` becomes
`((store.filter pred).drop a).take b`.  Fallible store calls are embedded with
an `Except` layer mirroring the `try`/`catch` structure of `searchFiles`.
-/

set_option maxHeartbeats 1000000
set_option linter.unnecessarySeqFocus false
set_option linter.unusedVariables false

/-- Backslash character, written via its code point. -/
def bslash : Char := Char.ofNat 92

/-- Apostrophe character, written via its code point. -/
def apos : Char := Char.ofNat 39

/-- Newline character. -/
def nlChar : Char := Char.ofNat 10

/-- Carriage-return character. -/
def crChar : Char := Char.ofNat 13

/-- JavaScript truthiness of a possibly-absent string field: `null`/`undefined`
and the empty string are falsy, everything else truthy. -/
def jsTruthy : Option (List Char) → Bool
  | none => false
  | some s => !s.isEmpty

/-- Decimal digit character for a value below ten (JS number printing). -/
def digitChar : Nat → Char
  | 0 => '0' | 1 => '1' | 2 => '2' | 3 => '3' | 4 => '4'
  | 5 => '5' | 6 => '6' | 7 => '7' | 8 => '8' | _ => '9'

/-- Fueled decimal printer; the fuel is an upper bound on the digit count kept
structural so the kernel can evaluate it (`natToChars` supplies enough). -/
def natToCharsAux : Nat → Nat → List Char
  | 0, _ => []
  | fuel + 1, n =>
    if n < 10 then [digitChar n]
    else natToCharsAux fuel (n / 10) ++ [digitChar (n % 10)]

/-- Decimal printing of a natural number, as JavaScript template literals
print a non-negative integer. -/
def natToChars (n : Nat) : List Char := natToCharsAux (n + 1) n

/-- Decimal printing of an integer (template-literal interpolation `${page}`). -/
def intToChars (i : Int) : List Char :=
  if i < 0 then '-' :: natToChars (-i).toNat else natToChars i.toNat

/-- Value of a run of decimal digit characters. -/
def digitsToNat (ds : List Char) : Nat :=
  ds.foldl (fun a c => a * 10 + (c.toNat - 48)) 0

/-- Leading-digit parse underlying JavaScript `parseInt` in base 10: take the
longest digit run at the front, `none` (NaN) when there is none. -/
def parseIntDigits (s : List Char) : Option Nat :=
  let ds := s.takeWhile Char.isDigit
  if ds.isEmpty then none else some (digitsToNat ds)

/-- Embedding of JavaScript `parseInt(s)` (base 10): optional sign, then the
longest leading digit run; `none` models NaN.  (JS also skips leading
whitespace; no whitespace occurs in the tokens this development parses.) -/
def jsParseInt (s : List Char) : Option Int :=
  match s with
  | [] => none
  | c :: rest =>
    if c = '-' then (parseIntDigits rest).map (fun n => -(n : Int))
    else if c = '+' then (parseIntDigits rest).map (fun n => (n : Int))
    else (parseIntDigits (c :: rest)).map (fun n => (n : Int))

/-- Embedding of `parseInt(s) || 0`: NaN becomes `0` (and `0` stays `0`). -/
def jsParseIntOrZero (s : List Char) : Int :=
  (jsParseInt s).getD 0

/-- Split on a single separator character, as JavaScript `s.split(sep)` for a
one-character separator: always returns at least one (possibly empty) field. -/
def splitOnC (sep : Char) : List Char → List (List Char)
  | [] => [[]]
  | c :: rest =>
    if c = sep then [] :: splitOnC sep rest
    else
      match splitOnC sep rest with
      | [] => [[c]]
      | h :: t => (c :: h) :: t

/-- Optional search filters (`SearchFilters`): `none` embeds the JavaScript
`null`/`undefined` absent field. -/
structure SearchFilters where
  file_lang : Option (List Char)
  year : Option (List Char)
  quality : Option (List Char)
deriving DecidableEq

/-- The `{page, filters}` record produced by `deserializeFilters`. -/
structure SearchState where
  page : Int
  filters : SearchFilters
deriving DecidableEq

/-- Embedding of `filters.x || '-'`: absent (or empty, which is falsy) fields
are encoded as the placeholder `-`. -/
def orDash : Option (List Char) → List Char
  | none => ['-']
  | some s => if s.isEmpty then ['-'] else s

/-- Embedding of `parts[i] === '-' ? null : parts[i]` (with a missing part,
JavaScript `undefined`, also mapping to an absent field). -/
def dashToNone : Option (List Char) → Option (List Char)
  | none => none
  | some s => if s = ['-'] then none else some s

/-- `serializeFilters(page, filters)` from `src/scrapper/scraper.js`: the
compact colon-delimited token `page:lang:year:quality`. -/
def serializeFilters (page : Int) (f : SearchFilters) : List Char :=
  intToChars page ++ ':' :: orDash f.file_lang
    ++ ':' :: orDash f.year ++ ':' :: orDash f.quality

/-- `deserializeFilters(data)` from `src/scrapper/scraper.js`: split on `:`,
parse the page with `parseInt(...) || 0`, map `-` back to absent. -/
def deserializeFilters (data : List Char) : SearchState :=
  let parts := splitOnC ':' data
  { page := jsParseIntOrZero (parts.headD [])
    filters :=
      { file_lang := dashToNone parts[1]?
        year := dashToNone parts[2]?
        quality := dashToNone parts[3]? } }

/-- The `LANGUAGES` map of `src/scrapper/scraper.js` (code, full name). -/
def LANGUAGES : List (List Char × List Char) :=
  [ ("EN".data, "English".data), ("HI".data, "Hindi".data), ("TA".data, "Tamil".data),
    ("TE".data, "Telugu".data), ("ML".data, "Malayalam".data), ("KN".data, "Kannada".data),
    ("BN".data, "Bengali".data), ("MR".data, "Marathi".data), ("MU".data, "Multi Audio".data) ]

/-- The `MULTI_KEYWORDS` list of `src/scrapper/scraper.js`. -/
def MULTI_KEYWORDS : List (List Char) :=
  [ "multi".data, "dual".data, "dual audio".data, "multi audio".data,
    "audios".data, "triple".data, "eng-hin".data, "hin-eng".data ]

/-- The quality tags offered by the filter menu (`showFilterMenu`, `'qual'`
branch of `src/scrapper/scraper.js`). -/
def QUALITIES : List (List Char) :=
  [ "4K".data, "1080p".data, "720p".data, "480p".data, "Cam".data ]

/-- A well-formed year filter value: a 4-digit string (spec data model). -/
def validYear (s : List Char) : Bool :=
  s.length = 4 && s.all Char.isDigit

/-- Validity of one optional filter field. -/
def validOpt (valid : List Char → Bool) : Option (List Char) → Bool
  | none => true
  | some s => valid s

/-- A valid `SearchFilters` value: each field absent or one of the enumerated
values (language codes, 4-digit years, quality tags). -/
def validFilters (f : SearchFilters) : Bool :=
  validOpt (fun s => (LANGUAGES.map Prod.fst).contains s) f.file_lang
    && validOpt validYear f.year
    && validOpt (fun s => QUALITIES.contains s) f.quality

/-- A filter value that serializes safely: non-empty, not the placeholder, and
free of the `:` `|` `%` delimiters, pure ASCII. -/
def goodToken (s : List Char) : Bool :=
  !s.isEmpty && s ≠ ['-']
    && s.all (fun c => c ≠ ':' && c ≠ '|' && c ≠ '%' && decide (c.toNat < 128))

/-- The regex metacharacters escaped by `escapeRegex`
(`/[.*+?^${}()|[\]\\]/g` in `src/scrapper/scraper.js`). -/
def metaChars : List Char :=
  ['.', '*', '+', '?', '^', '$', '{', '}', '(', ')', '|', '[', ']', bslash]

/-- `escapeRegex(string)` from `src/scrapper/scraper.js`: prefix every regex
metacharacter with a backslash. -/
def escapeRegex (s : List Char) : List Char :=
  s.flatMap (fun c => if c ∈ metaChars then [bslash, c] else [c])

/-- Regex tokens covering the constructs appearing in the patterns the code
builds: literal characters, `.`, the word boundary `\b`, and `*`. -/
inductive RTok where
  | lit : Char → RTok
  | dot : RTok
  | wb : RTok
  | star : RTok → RTok
deriving DecidableEq

/-- Regex pattern parser: `acc` is the reversed token list of the branch being
read; a top-level `|` closes a branch.  `\b` is the word boundary, any other
escaped character is a literal, `*` modifies the previous token. -/
def parseRegexAux : List Char → List RTok → List (List RTok)
  | [], acc => [acc.reverse]
  | c :: rest, acc =>
    if c = bslash then
      match rest with
      | [] => [acc.reverse]
      | d :: rest' =>
        if d = 'b' then parseRegexAux rest' (RTok.wb :: acc)
        else parseRegexAux rest' (RTok.lit d :: acc)
    else if c = '|' then acc.reverse :: parseRegexAux rest []
    else if c = '.' then parseRegexAux rest (RTok.dot :: acc)
    else if c = '*' then
      match acc with
      | [] => parseRegexAux rest acc
      | t :: ts => parseRegexAux rest (RTok.star t :: ts)
    else parseRegexAux rest (RTok.lit c :: acc)

/-- Parse a full pattern into its top-level alternation branches. -/
def parseRegex (p : List Char) : List (List RTok) := parseRegexAux p []

/-- Case folding used to embed the `i` regex flag (ASCII, as in the catalog
data this code matches against). -/
def lcChar (c : Char) : Char := c.toLower

/-- Word character for `\b` semantics: letters, digits and underscore. -/
def isWordChar (c : Char) : Bool := c.isAlphanum || c = '_'

/-- Whether a word boundary holds between the previous character and the rest
of the input (string edges count as non-word). -/
def boundaryAt (prev : Option Char) (s : List Char) : Bool :=
  let pw := match prev with | some p => isWordChar p | none => false
  let nw := match s with | c :: _ => isWordChar c | [] => false
  pw != nw

/-- Whether the `.` token matches a character (everything except the JS line
terminators). -/
def dotMatch (x : Char) : Bool :=
  x ≠ nlChar && x ≠ crChar && x.toNat ≠ 0x2028 && x.toNat ≠ 0x2029

/-- Single-character match of a starred token. -/
def tokMatch1 : RTok → Char → Bool
  | RTok.lit c, x => lcChar c = lcChar x
  | RTok.dot, x => dotMatch x
  | RTok.wb, _ => false
  | RTok.star _, _ => false

/-- Fueled backtracking matcher: does the token sequence match some prefix of
`s`, with `prev` the character just before `s` (for `\b`)?  Every call
decreases `toks.length + s.length`, so fuel `toks.length + s.length + 1`
is always enough; the fuel keeps the recursion structural. -/
def matchHere : Nat → List RTok → Option Char → List Char → Bool
  | 0, _, _, _ => false
  | fuel + 1, toks, prev, s =>
    match toks with
    | [] => true
    | RTok.lit c :: ts =>
      match s with
      | [] => false
      | x :: xs => lcChar c = lcChar x && matchHere fuel ts (some x) xs
    | RTok.dot :: ts =>
      match s with
      | [] => false
      | x :: xs => dotMatch x && matchHere fuel ts (some x) xs
    | RTok.wb :: ts => boundaryAt prev s && matchHere fuel ts prev s
    | RTok.star t :: ts =>
      matchHere fuel ts prev s ||
        match s with
        | [] => false
        | x :: xs => tokMatch1 t x && matchHere fuel (RTok.star t :: ts) (some x) xs

/-- Matcher entry point with sufficient fuel. -/
def matchHereTop (toks : List RTok) (prev : Option Char) (s : List Char) : Bool :=
  matchHere (toks.length + s.length + 1) toks prev s

/-- Does the branch match starting at some position of `s`? -/
def matchFrom (toks : List RTok) : Option Char → List Char → Bool
  | prev, [] => matchHereTop toks prev []
  | prev, x :: xs => matchHereTop toks prev (x :: xs) || matchFrom toks (some x) xs

/-- Embedding of `new RegExp(p, 'i').test(s)`: some alternation branch matches
at some position. -/
def regexTest (pat : List (List RTok)) (s : List Char) : Bool :=
  pat.any (fun b => matchFrom b none s)

/-- Case-insensitive "starts with": the literal-substring semantics the spec
promises for escaped user input. -/
def ciStartsWith : List Char → List Char → Bool
  | [], _ => true
  | _ :: _, [] => false
  | c :: cs, x :: xs => lcChar c = lcChar x && ciStartsWith cs xs

/-- Case-insensitive literal substring containment of `q` in `s`. -/
def ciContains (q : List Char) : List Char → Bool
  | [] => ciStartsWith q []
  | x :: xs => ciStartsWith q (x :: xs) || ciContains q xs

/-- Free-text condition of the composer: the escaped query as a
case-insensitive regex over the file name
(`new RegExp(escapeRegex(query), 'i')`). -/
def textCond (q : List Char) (name : List Char) : Bool :=
  regexTest (parseRegex (escapeRegex q)) name

/-- Language condition of the composer: the multi-audio sentinel becomes an
alternation of `MULTI_KEYWORDS`; an enumerated code becomes
`escapeRegex(langName)|\bescapeRegex(code)\b`; an unknown code is escaped
alone. -/
def langCond (code : List Char) (name : List Char) : Bool :=
  if code = "MU".data then
    regexTest (parseRegex (List.intercalate ['|'] MULTI_KEYWORDS)) name
  else
    match (LANGUAGES.lookup code) with
    | some langName =>
      regexTest
        (parseRegex (escapeRegex langName ++ '|' :: bslash :: 'b' ::
          escapeRegex code ++ [bslash, 'b'])) name
    | none => regexTest (parseRegex (escapeRegex code)) name

/-- Year condition of the composer: the raw year interpolated between `\b`
word boundaries (the code does not escape the year). -/
def yearCond (y : List Char) (name : List Char) : Bool :=
  regexTest (parseRegex (bslash :: 'b' :: y ++ [bslash, 'b'])) name

/-- Quality condition of the composer: the escaped tag as a case-insensitive
regex. -/
def qualityCond (t : List Char) (name : List Char) : Bool :=
  regexTest (parseRegex (escapeRegex t)) name

/-- A condition is only pushed when the corresponding field is truthy
(`if (filters.x) conditions.push(...)`). -/
def optCond (o : Option (List Char)) (cond : List Char → Bool) : Bool :=
  match o with
  | none => true
  | some s => if s.isEmpty then true else cond s

/-- The conjunction of all pushed conditions (`$and` of the Mongo query built
by `searchFiles`), evaluated on one file name. -/
def matchesConds (q : List Char) (f : SearchFilters) (name : List Char) : Bool :=
  (if q.isEmpty then true else textCond q name)
    && optCond f.file_lang (fun l => langCond l name)
    && optCond f.year (fun y => yearCond y name)
    && optCond f.quality (fun t => qualityCond t name)

/-- One catalog record (`ContentRecord`); only the fields the search path
reads are embedded.  `id` stands for the Mongo `_id`. -/
structure FileRec where
  id : Nat
  file_name : List Char
deriving DecidableEq

/-- The catalog store as seen by one `searchFiles` call: the collection in
descending-recency order plus failure flags for its two `find` calls
(the paged search and the fuzzy working-set query). -/
structure Store where
  files : List FileRec
  findFails : Bool
  recentFails : Bool

/-- `RESULTS_PER_PAGE` from the source. -/
def RESULTS_PER_PAGE : Nat := 10

/-- Result record returned by `searchFiles`. -/
structure SearchResult where
  files : List FileRec
  hasNext : Bool
  hasPrev : Bool
  currentPage : Nat
  isFuzzy : Bool
deriving DecidableEq

/-- The result the `catch` block of `searchFiles` returns on any store
error. -/
def emptyResult : SearchResult :=
  { files := [], hasNext := false, hasPrev := false, currentPage := 0, isFuzzy := false }

/-- `trackSearch(query)` from the source, as the list of trending upsert
operations it performs: one `upsertIncrement` on the lowercased query (which
increments `count` and sets `last_searched`), unless the query is empty or
shorter than 3 characters. -/
def trackSearch (q : List Char) : List (List Char) :=
  if q.isEmpty || q.length < 3 then [] else [q.map lcChar]

/-- The page of exact results after `skip`/`limit(RESULTS_PER_PAGE + 1)`. -/
def exactWindow (files : List FileRec) (q : List Char) (page : Nat)
    (f : SearchFilters) : List FileRec :=
  (((files.filter (fun r => matchesConds q f r.file_name)).drop
    (page * RESULTS_PER_PAGE)).take (RESULTS_PER_PAGE + 1))

/-- The exact results trimmed to the page size (the `files` local of the
source: `hasMore ? results.slice(0, RESULTS_PER_PAGE) : results`). -/
def exactFiles (files : List FileRec) (q : List Char) (page : Nat)
    (f : SearchFilters) : List FileRec :=
  let results := exactWindow files q page f
  if decide (results.length > RESULTS_PER_PAGE) then results.take RESULTS_PER_PAGE
  else results

/-- The condition under which the fuzzy fallback branch runs
(`files.length === 0 && query && !filters.file_lang && !filters.year`). -/
def fallbackTriggers (files : List FileRec) (q : List Char) (page : Nat)
    (f : SearchFilters) : Bool :=
  (exactFiles files q page f).isEmpty && !q.isEmpty
    && !jsTruthy f.file_lang && !jsTruthy f.year

/-- The body of `searchFiles` (the `try` block), with the external fuzzy
matcher (the `Fuse` library, a collaborator outside this repository) passed in
as the ranking function `fuse`.  Returns the search result together with the
trending operations performed; `throw` marks a store call failing. -/
def searchFilesE (fuse : List FileRec → List Char → List FileRec) (store : Store)
    (q : List Char) (page : Nat) (f : SearchFilters) :
    Except Unit (SearchResult × List (List Char)) :=
  let skip := page * RESULTS_PER_PAGE
  if store.findFails then .error () else
  let hasMore := decide ((exactWindow store.files q page f).length > RESULTS_PER_PAGE)
  let files := exactFiles store.files q page f
  if fallbackTriggers store.files q page f then
    if store.recentFails then .error () else
    let allFiles := store.files.take 1000
    let fuzzyResults := fuse allFiles q
    let fuzzyFiles := (fuzzyResults.drop skip).take RESULTS_PER_PAGE
    .ok ({ files := fuzzyFiles,
           hasNext := decide (fuzzyResults.length > skip + RESULTS_PER_PAGE),
           hasPrev := decide (page > 0),
           currentPage := page,
           isFuzzy := true }, [])
  else
    let tracked :=
      if !q.isEmpty && page = 0 && !jsTruthy f.file_lang && !jsTruthy f.year
          && !jsTruthy f.quality then
        trackSearch q
      else []
    .ok ({ files := files,
           hasNext := hasMore,
           hasPrev := decide (page > 0),
           currentPage := page,
           isFuzzy := false }, tracked)

/-- `searchFiles` with its `catch`: any store error becomes the empty result
set, and no error escapes to the caller. -/
def searchFiles (fuse : List FileRec → List Char → List FileRec) (store : Store)
    (q : List Char) (page : Nat) (f : SearchFilters) :
    SearchResult × List (List Char) :=
  match searchFilesE fuse store q page f with
  | .ok r => r
  | .error _ => (emptyResult, [])

/-- UTF-8 encoding of one unicode scalar value (how `Buffer.from(string)`
turns each character into bytes). -/
def utf8EncodeChar (c : Char) : List Nat :=
  if c.toNat < 0x80 then [c.toNat]
  else if c.toNat < 0x800 then [0xC0 + c.toNat / 64, 0x80 + c.toNat % 64]
  else if c.toNat < 0x10000 then
    [0xE0 + c.toNat / 4096, 0x80 + (c.toNat / 64) % 64, 0x80 + c.toNat % 64]
  else
    [0xF0 + c.toNat / 262144, 0x80 + (c.toNat / 4096) % 64,
      0x80 + (c.toNat / 64) % 64, 0x80 + c.toNat % 64]

/-- UTF-8 encoding of a whole string. -/
def utf8Encode (s : List Char) : List Nat := s.flatMap utf8EncodeChar

/-- UTF-8 decoding of a byte list (`buffer.toString('utf8')`); malformed
trailing sequences are dropped (they never arise on the round-trip path). -/
def utf8Decode : List Nat → List Char
  | [] => []
  | b :: rest =>
    if b < 0x80 then Char.ofNat b :: utf8Decode rest
    else
      match rest with
      | [] => []
      | b1 :: rest1 =>
        if b < 0xE0 then Char.ofNat ((b - 0xC0) * 64 + (b1 - 0x80)) :: utf8Decode rest1
        else
          match rest1 with
          | [] => []
          | b2 :: rest2 =>
            if b < 0xF0 then
              Char.ofNat ((b - 0xE0) * 4096 + (b1 - 0x80) * 64 + (b2 - 0x80))
                :: utf8Decode rest2
            else
              match rest2 with
              | [] => []
              | b3 :: rest3 =>
                Char.ofNat ((b - 0xF0) * 262144 + (b1 - 0x80) * 4096
                  + (b2 - 0x80) * 64 + (b3 - 0x80)) :: utf8Decode rest3

/-- Characters `encodeURIComponent` leaves unescaped:
`A-Z a-z 0-9 - _ . ! ~ * ' ( )`. -/
def uriUnreserved (c : Char) : Bool :=
  c.isAlpha || c.isDigit
    || c ∈ ['-', '_', '.', '!', '~', '*', apos, '(', ')']

/-- Uppercase hex digit (as `encodeURIComponent` emits). -/
def hexDigitChar : Nat → Char
  | 0 => '0' | 1 => '1' | 2 => '2' | 3 => '3' | 4 => '4' | 5 => '5' | 6 => '6'
  | 7 => '7' | 8 => '8' | 9 => '9' | 10 => 'A' | 11 => 'B' | 12 => 'C'
  | 13 => 'D' | 14 => 'E' | _ => 'F'

/-- Value of a hex digit character (either case), `none` otherwise. -/
def hexVal (c : Char) : Option Nat :=
  if c.isDigit then some (c.toNat - 48)
  else if 'A' ≤ c && c ≤ 'F' then some (c.toNat - 55)
  else if 'a' ≤ c && c ≤ 'f' then some (c.toNat - 87)
  else none

/-- Percent-escape of one byte: `%XY`. -/
def percentByte (b : Nat) : List Char :=
  ['%', hexDigitChar (b / 16), hexDigitChar (b % 16)]

/-- Embedding of JavaScript `encodeURIComponent`: unreserved characters pass
through, everything else is percent-encoded as its UTF-8 bytes. -/
def encodeURIComponent (s : List Char) : List Char :=
  s.flatMap (fun c =>
    if uriUnreserved c then [c] else (utf8EncodeChar c).flatMap percentByte)

/-- Byte stream of a percent-encoded string: a valid `%XY` group contributes
the byte, any other character contributes its own UTF-8 bytes.  (On a `%` not
followed by two hex digits JavaScript throws `URIError`; that never happens on
the round-trip path, and this total model just emits the raw bytes there.) -/
def uriToBytes : List Char → List Nat
  | [] => []
  | c :: rest =>
    if c = '%' then
      match rest with
      | h :: l :: rest' =>
        match hexVal h, hexVal l with
        | some a, some b => (a * 16 + b) :: uriToBytes rest'
        | _, _ => utf8EncodeChar c ++ utf8EncodeChar h ++ utf8EncodeChar l ++ uriToBytes rest'
      | [h] => utf8EncodeChar c ++ utf8EncodeChar h
      | [] => utf8EncodeChar c
    else utf8EncodeChar c ++ uriToBytes rest

/-- Embedding of JavaScript `decodeURIComponent` on the inputs this code
feeds it: percent sequences are decoded through UTF-8, other characters pass
through. -/
def decodeURIComponent (s : List Char) : List Char :=
  utf8Decode (uriToBytes s)

/-- The base64url alphabet (`A-Z a-z 0-9 - _`). -/
def b64Alphabet : List Char :=
  "ABCDEFGHIJKLMNOPQRSTUVWXYZabcdefghijklmnopqrstuvwxyz0123456789-_".data

/-- Character for a 6-bit value. -/
def b64Chr (n : Nat) : Char := b64Alphabet.getD n 'A'

/-- Value of a base64url character (encoder output only ever uses valid
characters; others read as 0, as they never arise on the round trip). -/
def b64Val (c : Char) : Nat :=
  ((b64Alphabet.indexOf? c).getD 0)

/-- Embedding of `Buffer.from(bytes).toString('base64url')`: three bytes to
four characters, unpadded remainder groups of two or three characters. -/
def base64urlEncode : List Nat → List Char
  | b0 :: b1 :: b2 :: rest =>
    b64Chr (b0 / 4) :: b64Chr ((b0 % 4) * 16 + b1 / 16)
      :: b64Chr ((b1 % 16) * 4 + b2 / 64) :: b64Chr (b2 % 64)
      :: base64urlEncode rest
  | [b0, b1] =>
    [b64Chr (b0 / 4), b64Chr ((b0 % 4) * 16 + b1 / 16), b64Chr ((b1 % 16) * 4)]
  | [b0] => [b64Chr (b0 / 4), b64Chr ((b0 % 4) * 16)]
  | [] => []

/-- Embedding of `Buffer.from(payload, 'base64url')`: four characters back to
three bytes, remainder groups to two, one or zero bytes. -/
def base64urlDecode : List Char → List Nat
  | c0 :: c1 :: c2 :: c3 :: rest =>
    (b64Val c0 * 4 + b64Val c1 / 16)
      :: ((b64Val c1 % 16) * 16 + b64Val c2 / 4)
      :: ((b64Val c2 % 4) * 64 + b64Val c3)
      :: base64urlDecode rest
  | [c0, c1, c2] =>
    [b64Val c0 * 4 + b64Val c1 / 16, (b64Val c1 % 16) * 16 + b64Val c2 / 4]
  | [c0, c1] => [b64Val c0 * 4 + b64Val c1 / 16]
  | _ => []

/-- The decoded deep-link state: query text, page, filters. -/
structure DeepLinkState where
  query : List Char
  page : Int
  filters : SearchFilters
deriving DecidableEq

/-- Deep-link encoder of the share handler (`bot.action(/^s:(.+)$/)`):
`base64url(encodeURIComponent(query) | page | lang | year | quality)` with
`-` placeholders for absent filters. -/
def deepLinkEncode (query : List Char) (page : Int) (f : SearchFilters) : List Char :=
  base64urlEncode (utf8Encode
    (encodeURIComponent query ++ '|' :: intToChars page
      ++ '|' :: orDash f.file_lang ++ '|' :: orDash f.year ++ '|' :: orDash f.quality))

/-- Deep-link decoder of `handleStatelessBatch`: base64url-decode, split on
`|`, `decodeURIComponent` every part, parse the page with
`parseInt(...) || 0`, map `-` back to absent. -/
def deepLinkDecode (payload : List Char) : DeepLinkState :=
  let decoded := utf8Decode (base64urlDecode payload)
  let parts := (splitOnC '|' decoded).map decodeURIComponent
  { query := parts.headD []
    page := jsParseIntOrZero (parts.getD 1 [])
    filters :=
      { file_lang := dashToNone parts[2]?
        year := dashToNone parts[3]?
        quality := dashToNone parts[4]? } }

/-- The batch-range payload `{c, s, e}` minted by the `/link` command. -/
structure RangePayload where
  c : Int
  s : Int
  e : Int
deriving DecidableEq

/-- The range normalisation and bound check of `bot.command('link')`:
`startId = min`, `finalEndId = max`, and ranges over 100 are rejected before
any payload is produced (`none`). -/
def linkEncode (chatId : Int) (startMsgId endMsgId : Int) : Option RangePayload :=
  let startId := min startMsgId endMsgId
  let finalEndId := max startMsgId endMsgId
  if finalEndId - startId > 100 then none
  else some { c := chatId, s := startId, e := finalEndId }

/-- `AUTO_DELETE_SECONDS` from the source. -/
def AUTO_DELETE_SECONDS : Nat := 3600

/-- The delayed-cleanup schedule a delivery path arms: the delay before the
delivered content is deleted, the number of transient "deleted" notices then
sent, and the delay before the notice itself is deleted. -/
structure DeliveryCleanup where
  contentDelayMs : Nat
  noticeCount : Nat
  noticeDelayMs : Nat
deriving DecidableEq

/-- Cleanup schedule of the single-file path (`sendFile`): content after
`AUTO_DELETE_SECONDS`, one notice, notice removed after 10000 ms. -/
def sendFileCleanup : DeliveryCleanup :=
  { contentDelayMs := AUTO_DELETE_SECONDS * 1000, noticeCount := 1, noticeDelayMs := 10000 }

/-- Cleanup schedule of the "get all" batch handler
(`bot.action(/^gall:(.+)$/)`): one notice, removed after 5000 ms. -/
def gallCleanup : DeliveryCleanup :=
  { contentDelayMs := AUTO_DELETE_SECONDS * 1000, noticeCount := 1, noticeDelayMs := 5000 }

/-- Cleanup schedule of the stateless batch deep link
(`handleStatelessBatch`): one notice, removed after 10000 ms. -/
def statelessBatchCleanup : DeliveryCleanup :=
  { contentDelayMs := AUTO_DELETE_SECONDS * 1000, noticeCount := 1, noticeDelayMs := 10000 }

/-- Cleanup schedule of the dump-channel range link (`handleDumpBatch`): one
notice, removed after 8000 ms. -/
def dumpBatchCleanup : DeliveryCleanup :=
  { contentDelayMs := AUTO_DELETE_SECONDS * 1000, noticeCount := 1, noticeDelayMs := 8000 }

/-! ## Decimal printing and parsing -/

theorem digitChar_toNat {d : Nat} (h : d < 10) : (digitChar d).toNat = 48 + d := by
  interval_cases d <;> decide

theorem digitChar_isDigit {d : Nat} (h : d < 10) : (digitChar d).isDigit = true := by
  interval_cases d <;> decide

theorem natToCharsAux_ne_nil {fuel n : Nat} (h : n < fuel) :
    natToCharsAux fuel n ≠ [] := by
  match fuel with
  | fuel + 1 =>
    unfold natToCharsAux
    split
    · simp
    · simp

theorem natToCharsAux_digits {fuel : Nat} :
    ∀ {n : Nat}, n < fuel → ∀ c ∈ natToCharsAux fuel n, c.isDigit = true := by
  induction fuel with
  | zero => intro n h; omega
  | succ fuel ih =>
    intro n h c hc
    unfold natToCharsAux at hc
    split at hc
    · rename_i h10
      simp at hc
      subst hc
      exact digitChar_isDigit h10
    · rename_i h10
      rw [List.mem_append] at hc
      rcases hc with hc | hc
      · exact ih (by omega) c hc
      · simp at hc
        subst hc
        exact digitChar_isDigit (by omega)

theorem digitsToNat_append_one (a : List Char) (c : Char) :
    digitsToNat (a ++ [c]) = digitsToNat a * 10 + (c.toNat - 48) := by
  simp [digitsToNat, List.foldl_append]

theorem digitsToNat_natToCharsAux {fuel : Nat} :
    ∀ {n : Nat}, n < fuel → digitsToNat (natToCharsAux fuel n) = n := by
  induction fuel with
  | zero => intro n h; omega
  | succ fuel ih =>
    intro n h
    unfold natToCharsAux
    split
    · rename_i h10
      simp [digitsToNat, digitChar_toNat h10]
    · rename_i h10
      rw [digitsToNat_append_one, ih (by omega), digitChar_toNat (by omega)]
      omega

theorem natToChars_digits {n : Nat} : ∀ c ∈ natToChars n, c.isDigit = true :=
  natToCharsAux_digits (Nat.lt_succ_self n)

theorem natToChars_ne_nil {n : Nat} : natToChars n ≠ [] :=
  natToCharsAux_ne_nil (Nat.lt_succ_self n)

theorem parseIntDigits_natToChars (n : Nat) :
    parseIntDigits (natToChars n) = some n := by
  unfold parseIntDigits
  rw [List.takeWhile_eq_self_iff.mpr natToChars_digits]
  rw [if_neg (by simpa using natToChars_ne_nil)]
  exact congrArg some (digitsToNat_natToCharsAux (Nat.lt_succ_self n))

theorem isDigit_toNat_bounds {c : Char} (h : c.isDigit = true) :
    48 ≤ c.toNat ∧ c.toNat ≤ 57 := by
  simpa [Char.isDigit] using h

theorem jsParseInt_natToChars (n : Nat) :
    jsParseInt (natToChars n) = some (n : Int) := by
  rcases hs : natToChars n with _ | ⟨c, rest⟩
  · exact absurd hs natToChars_ne_nil
  · have hdig : c.isDigit = true := natToChars_digits c (by rw [hs]; simp)
    have hb := isDigit_toNat_bounds hdig
    have hcm : c ≠ '-' := by
      intro hcc
      rw [hcc] at hb
      simp at hb
    have hcp : c ≠ '+' := by
      intro hcc
      rw [hcc] at hb
      simp at hb
    simp only [jsParseInt]
    rw [if_neg hcm, if_neg hcp, ← hs, parseIntDigits_natToChars]
    rfl

theorem jsParseIntOrZero_natToChars (n : Nat) :
    jsParseIntOrZero (natToChars n) = (n : Int) := by
  unfold jsParseIntOrZero
  rw [jsParseInt_natToChars]
  rfl

theorem intToChars_nonneg {i : Int} (h : 0 ≤ i) :
    intToChars i = natToChars i.toNat := by
  unfold intToChars
  rw [if_neg (by omega)]

/-! ## Splitting on a separator -/

theorem splitOnC_sepFree {sep : Char} : ∀ {a : List Char}, sep ∉ a →
    splitOnC sep a = [a] := by
  intro a
  induction a with
  | nil => intro _; rfl
  | cons c a' ih =>
    intro h
    have hc : ¬(c = sep) := by
      intro hcc
      exact h (by rw [hcc]; exact List.mem_cons_self _ _)
    show splitOnC sep (c :: a') = [c :: a']
    simp only [splitOnC]
    rw [if_neg hc, ih (fun hm => h (List.mem_cons_of_mem _ hm))]

theorem splitOnC_append {sep : Char} : ∀ {a : List Char} (b : List Char), sep ∉ a →
    splitOnC sep (a ++ sep :: b) = a :: splitOnC sep b := by
  intro a
  induction a with
  | nil =>
    intro b _
    show splitOnC sep (sep :: b) = [] :: splitOnC sep b
    simp only [splitOnC]
    simp
  | cons c a' ih =>
    intro b h
    have hc : ¬(c = sep) := by
      intro hcc
      exact h (by rw [hcc]; exact List.mem_cons_self _ _)
    show splitOnC sep (c :: (a' ++ sep :: b)) = (c :: a') :: splitOnC sep b
    simp only [splitOnC]
    rw [if_neg hc, ih b (fun hm => h (List.mem_cons_of_mem _ hm))]

/-! ## Valid filter values are well-behaved tokens -/

theorem lang_goodToken : ∀ s ∈ LANGUAGES.map Prod.fst, goodToken s = true := by decide

theorem qual_goodToken : ∀ s ∈ QUALITIES, goodToken s = true := by decide

theorem year_goodToken {s : List Char} (h : validYear s = true) : goodToken s = true := by
  unfold validYear at h
  rw [Bool.and_eq_true] at h
  obtain ⟨hlen, hdig⟩ := h
  rw [List.all_eq_true] at hdig
  unfold goodToken
  rw [Bool.and_eq_true, Bool.and_eq_true]
  refine ⟨⟨?_, ?_⟩, ?_⟩
  · cases s with
    | nil => simp at hlen
    | cons _ _ => rfl
  · rw [decide_eq_true_eq]
    intro hdash
    have := hdig '-' (by rw [hdash]; simp)
    simp at this
  · rw [List.all_eq_true]
    intro c hc
    have hb := isDigit_toNat_bounds (hdig c hc)
    have h1 : c ≠ ':' := by intro e; rw [e] at hb; simp at hb
    have h2 : c ≠ '|' := by intro e; rw [e] at hb; simp at hb
    have h3 : c ≠ '%' := by intro e; rw [e] at hb; simp at hb
    simp [h1, h2, h3]
    omega

theorem goodToken_props {s : List Char} (h : goodToken s = true) :
    s ≠ [] ∧ s ≠ ['-'] ∧ ':' ∉ s ∧ '|' ∉ s ∧ '%' ∉ s ∧ ∀ c ∈ s, c.toNat < 128 := by
  unfold goodToken at h
  rw [Bool.and_eq_true, Bool.and_eq_true] at h
  obtain ⟨⟨h1, h2⟩, h3⟩ := h
  rw [List.all_eq_true] at h3
  refine ⟨?_, ?_, ?_, ?_, ?_, ?_⟩
  · simpa using h1
  · simpa using h2
  · intro hm; have := h3 ':' hm; simp at this
  · intro hm; have := h3 '|' hm; simp at this
  · intro hm; have := h3 '%' hm; simp at this
  · intro c hc
    have := h3 c hc
    rw [Bool.and_eq_true, decide_eq_true_eq] at this
    exact this.2

/-- Validity of the three filter fields gives a good token for each present
value. -/
theorem validFilters_good {f : SearchFilters} (h : validFilters f = true) :
    (∀ s, f.file_lang = some s → goodToken s = true)
      ∧ (∀ s, f.year = some s → goodToken s = true)
      ∧ (∀ s, f.quality = some s → goodToken s = true) := by
  unfold validFilters at h
  rw [Bool.and_eq_true, Bool.and_eq_true] at h
  obtain ⟨⟨h1, h2⟩, h3⟩ := h
  refine ⟨?_, ?_, ?_⟩
  · intro s hs
    rw [hs] at h1
    have : s ∈ LANGUAGES.map Prod.fst := by
      simpa [validOpt] using h1
    exact lang_goodToken s this
  · intro s hs
    rw [hs] at h2
    exact year_goodToken h2
  · intro s hs
    rw [hs] at h3
    have : s ∈ QUALITIES := by
      simpa [validOpt] using h3
    exact qual_goodToken s this

theorem orDash_of_good {o : Option (List Char)}
    (h : ∀ s, o = some s → goodToken s = true) :
    (':' ∉ orDash o ∧ '|' ∉ orDash o ∧ '%' ∉ orDash o)
      ∧ dashToNone (some (orDash o)) = o := by
  match o with
  | none => exact ⟨by decide, by decide⟩
  | some s =>
    have hg := goodToken_props (h s rfl)
    have hne : ¬(s.isEmpty = true) := by simpa using hg.1
    have hod : orDash (some s) = s := by
      simp only [orDash]
      rw [if_neg hne]
    constructor
    · rw [hod]
      exact ⟨hg.2.2.1, hg.2.2.2.1, hg.2.2.2.2.1⟩
    · rw [hod]
      simp only [dashToNone]
      rw [if_neg hg.2.1]

/-! ## Claim C1: compact token round trip -/

/-- C1: for every valid SearchState (non-negative page, filters absent or
enumerated, none containing `:`), `deserializeFilters (serializeFilters page
filters)` returns exactly `{page, filters}`, with absent filters encoded as
`-` and mapped back to absent. -/
theorem C1_compact_token_roundtrip (page : Int) (f : SearchFilters)
    (hp : 0 ≤ page) (hf : validFilters f = true) :
    deserializeFilters (serializeFilters page f) = ⟨page, f⟩ := by
  obtain ⟨hl, hy, hq⟩ := validFilters_good hf
  obtain ⟨⟨hlc, _, _⟩, hld⟩ := orDash_of_good hl
  obtain ⟨⟨hyc, _, _⟩, hyd⟩ := orDash_of_good hy
  obtain ⟨⟨hqc, _, _⟩, hqd⟩ := orDash_of_good hq
  have hpage : intToChars page = natToChars page.toNat := intToChars_nonneg hp
  have hpc : ':' ∉ intToChars page := by
    rw [hpage]
    intro hm
    exact absurd (natToChars_digits ':' hm) (by decide)
  have hsplit : splitOnC ':' (serializeFilters page f)
      = [intToChars page, orDash f.file_lang, orDash f.year, orDash f.quality] := by
    unfold serializeFilters
    simp only [List.append_assoc, List.cons_append]
    rw [splitOnC_append _ hpc, splitOnC_append _ hlc, splitOnC_append _ hyc,
      splitOnC_sepFree hqc]
  unfold deserializeFilters
  rw [hsplit]
  simp only [List.headD, List.getElem?_cons_succ, List.getElem?_cons_zero]
  rw [hld, hyd, hqd, hpage, jsParseIntOrZero_natToChars, Int.toNat_of_nonneg hp]

/-- Witness for C1 at the spec's own example: page 2 with the Hindi / 2021 /
720p filters round-trips. -/
theorem C1_compact_token_roundtrip_witness :
    deserializeFilters (serializeFilters 2
      ⟨some ("HI".data), some ("2021".data), some ("720p".data)⟩)
      = ⟨2, ⟨some ("HI".data), some ("2021".data), some ("720p".data)⟩⟩ :=
  C1_compact_token_roundtrip 2 ⟨some ("HI".data), some ("2021".data), some ("720p".data)⟩
    (by decide) (by decide)

/-! ## Claim C6: batch-range normalisation and bound -/

/-- C6: the `/link` encoder normalises the id pair to `start = min`,
`end = max`, rejects ranges over 100 before producing a payload, and so every
payload it produces satisfies `0 ≤ e - s ≤ 100` (with both ids present and
numeric by construction of `RangePayload`). -/
theorem C6_link_range_bound (chatId a b : Int) (p : RangePayload)
    (h : linkEncode chatId a b = some p) :
    p.s = min a b ∧ p.e = max a b ∧ 0 ≤ p.e - p.s ∧ p.e - p.s ≤ 100 := by
  simp only [linkEncode] at h
  split at h
  · exact absurd h (by simp)
  · rename_i hle
    obtain rfl := Option.some.inj h
    have hmm : min a b ≤ max a b := min_le_max
    refine ⟨rfl, rfl, ?_, ?_⟩
    · show (0 : Int) ≤ max a b - min a b
      omega
    · show max a b - min a b ≤ 100
      omega

/-- Witness for C6: ids given in reversed order are normalised and the
payload satisfies the bound. -/
theorem C6_link_range_bound_witness :
    (⟨777, 100, 150⟩ : RangePayload).s = min (150 : Int) 100
      ∧ (⟨777, 100, 150⟩ : RangePayload).e = max (150 : Int) 100
      ∧ (0 : Int) ≤ (⟨777, 100, 150⟩ : RangePayload).e - (⟨777, 100, 150⟩ : RangePayload).s
      ∧ (⟨777, 100, 150⟩ : RangePayload).e - (⟨777, 100, 150⟩ : RangePayload).s ≤ 100 :=
  C6_link_range_bound 777 150 100 ⟨777, 100, 150⟩ (by decide)

/-! ## Claim C8: transient notice delays -/

/-- C8 counterexample: the "get all" delivery path schedules the deletion of
its transient notice after 5000 ms, outside the 8-10 second range the claim
asserts for every delivery path. -/
theorem C8_notice_delay_counterexample :
    gallCleanup.noticeDelayMs = 5000
      ∧ ¬(8 * 1000 ≤ gallCleanup.noticeDelayMs ∧ gallCleanup.noticeDelayMs ≤ 10 * 1000) := by
  decide

/-- C8 amended: each of the four delivery paths sends exactly one transient
notice after the batch deletion, with content delay 3600 s in all paths; the
notice-deletion delay is 10 s for single file and stateless batch, 8 s for the
dump-channel range, but 5 s (outside 8-10 s) for the "get all" path. -/
theorem C8_notice_delays :
    sendFileCleanup.noticeCount = 1 ∧ statelessBatchCleanup.noticeCount = 1
      ∧ dumpBatchCleanup.noticeCount = 1 ∧ gallCleanup.noticeCount = 1
      ∧ sendFileCleanup.noticeDelayMs = 10000
      ∧ statelessBatchCleanup.noticeDelayMs = 10000
      ∧ dumpBatchCleanup.noticeDelayMs = 8000
      ∧ gallCleanup.noticeDelayMs = 5000
      ∧ sendFileCleanup.contentDelayMs = 3600 * 1000
      ∧ statelessBatchCleanup.contentDelayMs = 3600 * 1000
      ∧ dumpBatchCleanup.contentDelayMs = 3600 * 1000
      ∧ gallCleanup.contentDelayMs = 3600 * 1000 := by
  decide

/-! ## Claims about the search executor -/

/-- The fallback condition as a conjunction of the claim's side conditions. -/
theorem fallbackTriggers_iff {files : List FileRec} {q : List Char} {page : Nat}
    {f : SearchFilters} :
    fallbackTriggers files q page f = true ↔
      (exactFiles files q page f = [] ∧ q ≠ [] ∧ jsTruthy f.file_lang = false
        ∧ jsTruthy f.year = false) := by
  unfold fallbackTriggers
  simp [Bool.and_eq_true, List.isEmpty_iff, Bool.not_eq_true', and_assoc]

/-- C3: with the store responding, the fuzzy fallback runs (its `isFuzzy`
flag is set) exactly when the trimmed exact result is empty, the query text is
non-empty, and no language or year filter is active; a quality-only filter
does not block it. -/
theorem C3_fuzzy_fallback_trigger_iff (fuse : List FileRec → List Char → List FileRec)
    (store : Store) (q : List Char) (page : Nat) (f : SearchFilters)
    (h1 : store.findFails = false) (h2 : store.recentFails = false) :
    ((searchFiles fuse store q page f).1.isFuzzy = true) ↔
      (exactFiles store.files q page f = [] ∧ q ≠ [] ∧
        jsTruthy f.file_lang = false ∧ jsTruthy f.year = false) := by
  rw [← fallbackTriggers_iff]
  unfold searchFiles
  by_cases hB : fallbackTriggers store.files q page f = true
  · simp [searchFilesE, h1, h2, hB]
  · simp only [Bool.not_eq_true] at hB
    simp [searchFilesE, h1, h2, hB]

/-- Witness for C3: empty catalog, query `abc`, quality-only filter: the
fallback triggers. -/
theorem C3_fuzzy_fallback_trigger_iff_witness :
    ((searchFiles (fun _ _ => []) ⟨[], false, false⟩ ("abc".data) 0
        ⟨none, none, some ("720p".data)⟩).1.isFuzzy = true) ↔
      (exactFiles [] ("abc".data) 0 ⟨none, none, some ("720p".data)⟩ = []
        ∧ "abc".data ≠ []
        ∧ jsTruthy (⟨none, none, some ("720p".data)⟩ : SearchFilters).file_lang = false
        ∧ jsTruthy (⟨none, none, some ("720p".data)⟩ : SearchFilters).year = false) :=
  C3_fuzzy_fallback_trigger_iff (fun _ _ => []) ⟨[], false, false⟩ ("abc".data) 0
    ⟨none, none, some ("720p".data)⟩ rfl rfl

/-- C7: any store-call failure (the paged query, or the fallback working-set
query when the fallback is on the execution path) makes `searchFiles` return
the empty result set with `hasNext = hasPrev = false` and no trending
operation; being a total function, it propagates no error. -/
theorem C7_store_error_empty_result (fuse : List FileRec → List Char → List FileRec)
    (store : Store) (q : List Char) (page : Nat) (f : SearchFilters)
    (h : store.findFails = true
      ∨ (store.recentFails = true ∧ fallbackTriggers store.files q page f = true)) :
    searchFiles fuse store q page f = (emptyResult, []) := by
  unfold searchFiles
  rcases h with h | ⟨hr, ht⟩
  · simp [searchFilesE, h]
  · by_cases hfind : store.findFails = true
    · simp [searchFilesE, hfind]
    · simp only [Bool.not_eq_true] at hfind
      simp [searchFilesE, hfind, hr, ht]

/-- Witness for C7: a failing paged query yields the empty result. -/
theorem C7_store_error_empty_result_witness :
    searchFiles (fun _ _ => []) ⟨[], true, false⟩ ("abc".data) 3 ⟨none, none, none⟩
      = (emptyResult, []) :=
  C7_store_error_empty_result (fun _ _ => []) ⟨[], true, false⟩ ("abc".data) 3
    ⟨none, none, none⟩ (Or.inl rfl)

/-- C9 counterexample: when the store fails, the `catch` block returns
`hasPrev = false` even on page 1, so `hasPrev = (p > 0)` does not hold for
every invocation. -/
theorem C9_hasPrev_counterexample :
    (searchFiles (fun _ _ => []) ⟨[], true, false⟩ ("a".data) 1
        ⟨none, none, none⟩).1.hasPrev = false
      ∧ (1 : Nat) > 0 := by decide

/-- C9 amended: when the store calls succeed, `hasPrev` equals `page > 0` on
both the exact and the fallback path; on a store failure the catch block
returns `hasPrev = false` regardless of the page. -/
theorem C9_hasPrev_iff_page_positive (fuse : List FileRec → List Char → List FileRec)
    (store : Store) (q : List Char) (page : Nat) (f : SearchFilters)
    (h1 : store.findFails = false) (h2 : store.recentFails = false) :
    (searchFiles fuse store q page f).1.hasPrev = decide (page > 0) := by
  unfold searchFiles
  by_cases hB : fallbackTriggers store.files q page f = true
  · simp [searchFilesE, h1, h2, hB]
  · simp only [Bool.not_eq_true] at hB
    simp [searchFilesE, h1, h2, hB]

/-- Witness for the amended C9 at page 3. -/
theorem C9_hasPrev_iff_page_positive_witness :
    (searchFiles (fun _ _ => []) ⟨[], false, false⟩ ("x".data) 3
        ⟨none, none, none⟩).1.hasPrev = decide (3 > 0) :=
  C9_hasPrev_iff_page_positive (fun _ _ => []) ⟨[], false, false⟩ ("x".data) 3
    ⟨none, none, none⟩ rfl rfl

/-- C4 counterexample: an unfiltered page-0 query of length 3 whose exact
result is empty takes the fallback path and performs no trending increment,
contradicting the claim that every such search increments the counter exactly
once. -/
theorem C4_trending_counterexample :
    (searchFiles (fun _ _ => []) ⟨[], false, false⟩ ("abc".data) 0
        ⟨none, none, none⟩).2 ≠ [("abc".data).map lcChar]
      ∧ 3 ≤ ("abc".data).length := by decide

/-- C4 amended: with the paged store call succeeding, the trending operations
of a search are exactly one upsert on the lowercased query when the fallback
path is not taken, the query is non-empty and of length at least 3, the page
is 0, and no language, year or quality filter is active; otherwise (including
every fallback-path search) there is none. -/
theorem C4_trending_increment_iff (fuse : List FileRec → List Char → List FileRec)
    (store : Store) (q : List Char) (page : Nat) (f : SearchFilters)
    (h1 : store.findFails = false) :
    (searchFiles fuse store q page f).2 =
      (if fallbackTriggers store.files q page f = false ∧ q ≠ [] ∧ page = 0
          ∧ jsTruthy f.file_lang = false ∧ jsTruthy f.year = false
          ∧ jsTruthy f.quality = false ∧ 3 ≤ q.length
        then [q.map lcChar] else []) := by
  unfold searchFiles
  by_cases hB : fallbackTriggers store.files q page f = true
  · by_cases hr : store.recentFails = true
    · simp [searchFilesE, h1, hB, hr]
    · simp only [Bool.not_eq_true] at hr
      simp [searchFilesE, h1, hB, hr]
  · simp only [Bool.not_eq_true] at hB
    simp only [searchFilesE, h1, hB]
    simp [trackSearch, hB]
    split_ifs <;> simp_all <;> omega

/-- Witness for the amended C4: a catalog hit on `abc` at page 0 with no
filters records exactly one lowercased trending key. -/
theorem C4_trending_increment_iff_witness :
    (searchFiles (fun _ _ => []) ⟨[⟨1, "ABCdef movie".data⟩], false, false⟩
        ("abc".data) 0 ⟨none, none, none⟩).2 =
      (if fallbackTriggers [⟨1, "ABCdef movie".data⟩] ("abc".data) 0
            ⟨none, none, none⟩ = false
          ∧ "abc".data ≠ [] ∧ 0 = 0
          ∧ jsTruthy (⟨none, none, none⟩ : SearchFilters).file_lang = false
          ∧ jsTruthy (⟨none, none, none⟩ : SearchFilters).year = false
          ∧ jsTruthy (⟨none, none, none⟩ : SearchFilters).quality = false
          ∧ 3 ≤ ("abc".data).length
        then [("abc".data).map lcChar] else []) :=
  C4_trending_increment_iff (fun _ _ => []) ⟨[⟨1, "ABCdef movie".data⟩], false, false⟩
    ("abc".data) 0 ⟨none, none, none⟩ rfl

/-- C10: when the fallback triggers with a quality filter active, the
returned page is the page-size window of the ranking the external fuzzy
matcher computes from the query and the 1000 most recent records alone - the
quality filter does not appear in this computation, so fallback records may
fail the quality predicate. -/
theorem C10_fallback_ignores_quality (fuse : List FileRec → List Char → List FileRec)
    (store : Store) (q : List Char) (page : Nat) (f : SearchFilters)
    (h1 : store.findFails = false) (h2 : store.recentFails = false)
    (ht : fallbackTriggers store.files q page f = true)
    (hquality : jsTruthy f.quality = true) :
    (searchFiles fuse store q page f).1.files =
      ((fuse (store.files.take 1000) q).drop (page * RESULTS_PER_PAGE)).take
        RESULTS_PER_PAGE
      ∧ (searchFiles fuse store q page f).1.isFuzzy = true := by
  clear hquality
  unfold searchFiles
  simp [searchFilesE, h1, h2, ht]

/-- Witness for C10: a 720p-only catalog searched for `zzz` with a 720p
filter falls back to the fuzzy window over the recent records. -/
theorem C10_fallback_ignores_quality_witness :
    (searchFiles (fun files _ => files) ⟨[⟨1, "Film 720p".data⟩], false, false⟩
        ("zzz".data) 0 ⟨none, none, some ("720p".data)⟩).1.files =
      ((([⟨1, "Film 720p".data⟩] : List FileRec).take 1000).drop
        (0 * RESULTS_PER_PAGE)).take RESULTS_PER_PAGE
      ∧ (searchFiles (fun files _ => files) ⟨[⟨1, "Film 720p".data⟩], false, false⟩
          ("zzz".data) 0 ⟨none, none, some ("720p".data)⟩).1.isFuzzy = true :=
  C10_fallback_ignores_quality (fun files _ => files)
    ⟨[⟨1, "Film 720p".data⟩], false, false⟩ ("zzz".data) 0
    ⟨none, none, some ("720p".data)⟩ rfl rfl (by decide) rfl

/-! ## Claim C5: escaping yields literal substring semantics -/

theorem escapeRegex_nil : escapeRegex [] = [] := rfl

theorem escapeRegex_cons (c : Char) (q : List Char) :
    escapeRegex (c :: q)
      = (if c ∈ metaChars then [bslash, c] else [c]) ++ escapeRegex q := by
  simp [escapeRegex]

theorem parseRegexAux_escape :
    ∀ (q : List Char) (acc : List RTok),
      parseRegexAux (escapeRegex q) acc = [acc.reverse ++ q.map RTok.lit] := by
  intro q
  induction q with
  | nil => intro acc; simp [escapeRegex, parseRegexAux]
  | cons c q' ih =>
    intro acc
    rw [escapeRegex_cons]
    by_cases hc : c ∈ metaChars
    · rw [if_pos hc]
      have hcb : ¬(c = 'b') := by
        intro h
        rw [h] at hc
        exact absurd hc (by decide)
      show parseRegexAux (bslash :: c :: escapeRegex q') acc = _
      rw [parseRegexAux.eq_def]
      simp only [if_true, if_neg hcb]
      rw [ih]
      simp
    · rw [if_neg hc]
      have h1 : ¬(c = bslash) := fun h => hc (by rw [h]; decide)
      have h2 : ¬(c = '|') := fun h => hc (by rw [h]; decide)
      have h3 : ¬(c = '.') := fun h => hc (by rw [h]; decide)
      have h4 : ¬(c = '*') := fun h => hc (by rw [h]; decide)
      show parseRegexAux (c :: escapeRegex q') acc = _
      rw [parseRegexAux.eq_def]
      simp only [if_neg h1, if_neg h2, if_neg h3, if_neg h4]
      rw [ih]
      simp

theorem matchHere_lits :
    ∀ (q : List Char) (fuel : Nat) (prev : Option Char) (s : List Char),
      q.length < fuel →
      matchHere fuel (q.map RTok.lit) prev s = ciStartsWith q s := by
  intro q
  induction q with
  | nil =>
    intro fuel prev s hf
    match fuel with
    | fuel + 1 => rfl
  | cons c q' ih =>
    intro fuel prev s hf
    match fuel with
    | fuel + 1 =>
      match s with
      | [] => rfl
      | x :: xs =>
        show (decide (lcChar c = lcChar x)
            && matchHere fuel (q'.map RTok.lit) (some x) xs) = _
        rw [ih fuel (some x) xs (by simpa using Nat.lt_of_succ_lt_succ hf)]
        rfl

theorem matchFrom_lits :
    ∀ (s : List Char) (q : List Char) (prev : Option Char),
      matchFrom (q.map RTok.lit) prev s = ciContains q s := by
  intro s
  induction s with
  | nil =>
    intro q prev
    show matchHereTop (q.map RTok.lit) prev [] = _
    unfold matchHereTop
    rw [matchHere_lits q _ prev [] (by simp)]
    rfl
  | cons x xs ih =>
    intro q prev
    show (matchHereTop (q.map RTok.lit) prev (x :: xs)
        || matchFrom (q.map RTok.lit) (some x) xs) = _
    unfold matchHereTop
    rw [matchHere_lits q _ prev (x :: xs) (by simp; omega), ih q (some x)]
    rfl

/-- C5: the free-text predicate and the quality predicate the composer builds
from escaped user input have exactly case-insensitive literal-substring
semantics: no metacharacter of the input (such as `.*`) acts as pattern
syntax. -/
theorem C5_escaped_predicate_literal (q name : List Char) :
    textCond q name = ciContains q name
      ∧ qualityCond q name = ciContains q name := by
  have key : regexTest (parseRegex (escapeRegex q)) name = ciContains q name := by
    unfold regexTest parseRegex
    rw [parseRegexAux_escape]
    simp [matchFrom_lits]
  exact ⟨key, key⟩

/-- The engine itself does interpret an unescaped `.*` as "any characters";
only escaping makes it literal - the escaped pattern rejects `hello` exactly
as literal-substring containment does. -/
theorem dotStar_escaped_vs_unescaped :
    regexTest (parseRegex (".*".data)) ("hello".data) = true
      ∧ regexTest (parseRegex (escapeRegex (".*".data))) ("hello".data) = false
      ∧ ciContains (".*".data) ("hello".data) = false
      ∧ ciContains (".*".data) ("a.*b".data) = true := by decide

/-! ## Byte-level codecs: hex, base64url, UTF-8 -/

theorem hexVal_hexDigitChar : ∀ n, n < 16 → hexVal (hexDigitChar n) = some n := by
  decide

theorem b64Val_b64Chr : ∀ n, n < 64 → b64Val (b64Chr n) = n := by decide

theorem base64url_roundtrip (bytes : List Nat) (h : ∀ b ∈ bytes, b < 256) :
    base64urlDecode (base64urlEncode bytes) = bytes := by
  induction bytes using base64urlEncode.induct with
  | case1 b0 b1 b2 rest ih =>
    have hb0 : b0 < 256 := h b0 (by simp)
    have hb1 : b1 < 256 := h b1 (by simp)
    have hb2 : b2 < 256 := h b2 (by simp)
    simp only [base64urlEncode, base64urlDecode]
    rw [b64Val_b64Chr _ (by omega), b64Val_b64Chr _ (by omega),
      b64Val_b64Chr _ (by omega), b64Val_b64Chr _ (by omega),
      ih (fun b hb => h b (by simp [hb]))]
    simp only [List.cons.injEq]
    exact ⟨by omega, by omega, by omega, trivial⟩
  | case2 b0 b1 =>
    have hb0 : b0 < 256 := h b0 (by simp)
    have hb1 : b1 < 256 := h b1 (by simp)
    simp only [base64urlEncode, base64urlDecode]
    rw [b64Val_b64Chr _ (by omega), b64Val_b64Chr _ (by omega),
      b64Val_b64Chr _ (by omega)]
    simp only [List.cons.injEq]
    exact ⟨by omega, by omega, trivial⟩
  | case3 b0 =>
    have hb0 : b0 < 256 := h b0 (by simp)
    simp only [base64urlEncode, base64urlDecode]
    rw [b64Val_b64Chr _ (by omega), b64Val_b64Chr _ (by omega)]
    simp only [List.cons.injEq]
    exact ⟨by omega, trivial⟩
  | case4 => rfl

theorem char_toNat_lt (c : Char) : c.toNat < 1114112 := by
  rcases c.valid with h | ⟨h1, h2⟩
  · have : c.val.toNat < 55296 := h
    simp only [Char.toNat]
    omega
  · have : c.val.toNat < 1114112 := h2
    simp only [Char.toNat]
    omega

theorem utf8EncodeChar_lt (c : Char) : ∀ b ∈ utf8EncodeChar c, b < 256 := by
  have hv := char_toNat_lt c
  intro b hb
  unfold utf8EncodeChar at hb
  split_ifs at hb with h1 h2 h3 <;> simp at hb <;> omega

theorem utf8Encode_lt (s : List Char) : ∀ b ∈ utf8Encode s, b < 256 := by
  intro b hb
  unfold utf8Encode at hb
  rw [List.mem_flatMap] at hb
  obtain ⟨c, _, hbc⟩ := hb
  exact utf8EncodeChar_lt c b hbc

theorem utf8Decode_encodeChar (c : Char) (rest : List Nat) :
    utf8Decode (utf8EncodeChar c ++ rest) = c :: utf8Decode rest := by
  have hv := char_toNat_lt c
  unfold utf8EncodeChar
  split_ifs with h1 h2 h3
  · show utf8Decode (c.toNat :: rest) = _
    rw [utf8Decode.eq_def]
    show (if c.toNat < 128 then Char.ofNat c.toNat :: utf8Decode rest else _)
      = c :: utf8Decode rest
    rw [if_pos h1, Char.ofNat_toNat]
  · show utf8Decode ((0xC0 + c.toNat / 64) :: (0x80 + c.toNat % 64) :: rest) = _
    rw [utf8Decode.eq_def]
    show (if 0xC0 + c.toNat / 64 < 128 then _ else
      if 0xC0 + c.toNat / 64 < 224 then
        Char.ofNat ((0xC0 + c.toNat / 64 - 192) * 64 + (0x80 + c.toNat % 64 - 128))
          :: utf8Decode rest
      else _) = c :: utf8Decode rest
    rw [if_neg (by omega), if_pos (by omega)]
    have hval : (0xC0 + c.toNat / 64 - 192) * 64 + (0x80 + c.toNat % 64 - 128)
        = c.toNat := by omega
    rw [hval, Char.ofNat_toNat]
  · show utf8Decode ((0xE0 + c.toNat / 4096) :: (0x80 + c.toNat / 64 % 64)
        :: (0x80 + c.toNat % 64) :: rest) = _
    rw [utf8Decode.eq_def]
    show (if 0xE0 + c.toNat / 4096 < 128 then _ else
      if 0xE0 + c.toNat / 4096 < 224 then _ else
      if 0xE0 + c.toNat / 4096 < 240 then
        Char.ofNat ((0xE0 + c.toNat / 4096 - 224) * 4096
          + (0x80 + c.toNat / 64 % 64 - 128) * 64 + (0x80 + c.toNat % 64 - 128))
          :: utf8Decode rest
      else _) = c :: utf8Decode rest
    rw [if_neg (by omega), if_neg (by omega), if_pos (by omega)]
    have hval : (0xE0 + c.toNat / 4096 - 224) * 4096
        + (0x80 + c.toNat / 64 % 64 - 128) * 64 + (0x80 + c.toNat % 64 - 128)
        = c.toNat := by omega
    rw [hval, Char.ofNat_toNat]
  · show utf8Decode ((0xF0 + c.toNat / 262144) :: (0x80 + c.toNat / 4096 % 64)
        :: (0x80 + c.toNat / 64 % 64) :: (0x80 + c.toNat % 64) :: rest) = _
    rw [utf8Decode.eq_def]
    show (if 0xF0 + c.toNat / 262144 < 128 then _ else
      if 0xF0 + c.toNat / 262144 < 224 then _ else
      if 0xF0 + c.toNat / 262144 < 240 then _ else
        Char.ofNat ((0xF0 + c.toNat / 262144 - 240) * 262144
          + (0x80 + c.toNat / 4096 % 64 - 128) * 4096
          + (0x80 + c.toNat / 64 % 64 - 128) * 64 + (0x80 + c.toNat % 64 - 128))
          :: utf8Decode rest) = c :: utf8Decode rest
    rw [if_neg (by omega), if_neg (by omega), if_neg (by omega)]
    have hval : (0xF0 + c.toNat / 262144 - 240) * 262144
        + (0x80 + c.toNat / 4096 % 64 - 128) * 4096
        + (0x80 + c.toNat / 64 % 64 - 128) * 64 + (0x80 + c.toNat % 64 - 128)
        = c.toNat := by omega
    rw [hval, Char.ofNat_toNat]

theorem utf8Decode_utf8Encode (s : List Char) : utf8Decode (utf8Encode s) = s := by
  induction s with
  | nil => rfl
  | cons c s' ih =>
    show utf8Decode (utf8EncodeChar c ++ utf8Encode s') = _
    rw [utf8Decode_encodeChar, ih]

/-! ## Percent-encoding round trip -/

theorem uriToBytes_no_percent : ∀ {s : List Char}, '%' ∉ s →
    uriToBytes s = utf8Encode s := by
  intro s
  induction s with
  | nil => intro _; rfl
  | cons c rest ih =>
    intro h
    have hc : ¬(c = '%') := fun e => h (by rw [e]; exact List.mem_cons_self _ _)
    rw [uriToBytes.eq_def]
    show (if c = '%' then _ else utf8EncodeChar c ++ uriToBytes rest) = _
    rw [if_neg hc, ih (fun hm => h (List.mem_cons_of_mem _ hm))]
    rfl

theorem uriToBytes_percentBytes :
    ∀ (bytes : List Nat) (tail : List Char), (∀ b ∈ bytes, b < 256) →
      uriToBytes (bytes.flatMap percentByte ++ tail) = bytes ++ uriToBytes tail := by
  intro bytes
  induction bytes with
  | nil => intro tail _; simp
  | cons b bytes' ih =>
    intro tail h
    have hb : b < 256 := h b (by simp)
    have e1 : hexVal (hexDigitChar (b / 16)) = some (b / 16) :=
      hexVal_hexDigitChar _ (by omega)
    have e2 : hexVal (hexDigitChar (b % 16)) = some (b % 16) :=
      hexVal_hexDigitChar _ (by omega)
    show uriToBytes ('%' :: hexDigitChar (b / 16) :: hexDigitChar (b % 16)
      :: (bytes'.flatMap percentByte ++ tail)) = _
    rw [uriToBytes.eq_def]
    simp only [if_true, e1, e2]
    rw [ih tail (fun x hx => h x (by simp [hx]))]
    simp only [List.cons_append, List.cons.injEq]
    exact ⟨by omega, trivial⟩

theorem encodeURIComponent_cons (c : Char) (s : List Char) :
    encodeURIComponent (c :: s)
      = (if uriUnreserved c then [c]
          else (utf8EncodeChar c).flatMap percentByte) ++ encodeURIComponent s := by
  simp [encodeURIComponent]

theorem uriToBytes_encodeURIComponent (s : List Char) :
    uriToBytes (encodeURIComponent s) = utf8Encode s := by
  induction s with
  | nil => rfl
  | cons c s' ih =>
    rw [encodeURIComponent_cons]
    by_cases hu : uriUnreserved c = true
    · rw [if_pos hu]
      have hc : ¬(c = '%') := by
        intro e
        rw [e] at hu
        exact absurd hu (by decide)
      show uriToBytes (c :: encodeURIComponent s') = _
      rw [uriToBytes.eq_def]
      show (if c = '%' then _ else utf8EncodeChar c ++ uriToBytes (encodeURIComponent s')) = _
      rw [if_neg hc, ih]
      rfl
    · rw [if_neg hu]
      rw [uriToBytes_percentBytes _ _ (utf8EncodeChar_lt c), ih]
      rfl

theorem decodeURIComponent_encodeURIComponent (s : List Char) :
    decodeURIComponent (encodeURIComponent s) = s := by
  unfold decodeURIComponent
  rw [uriToBytes_encodeURIComponent, utf8Decode_utf8Encode]

theorem decodeURIComponent_no_percent {s : List Char} (h : '%' ∉ s) :
    decodeURIComponent s = s := by
  unfold decodeURIComponent
  rw [uriToBytes_no_percent h, utf8Decode_utf8Encode]

theorem hexDigitChar_ne_pipe : ∀ n, hexDigitChar n ≠ '|' := by
  intro n
  unfold hexDigitChar
  split <;> decide

theorem pipe_not_mem_encodeURIComponent (s : List Char) :
    '|' ∉ encodeURIComponent s := by
  induction s with
  | nil => simp [encodeURIComponent]
  | cons c s' ih =>
    rw [encodeURIComponent_cons]
    rw [List.mem_append]
    rintro (hm | hm)
    · by_cases hu : uriUnreserved c = true
      · rw [if_pos hu] at hm
        simp at hm
        rw [← hm] at hu
        exact absurd hu (by decide)
      · rw [if_neg hu] at hm
        rw [List.mem_flatMap] at hm
        obtain ⟨b, _, hb⟩ := hm
        unfold percentByte at hb
        rcases List.mem_cons.mp hb with h1 | hb2
        · exact absurd h1 (by decide)
        rcases List.mem_cons.mp hb2 with h2 | hb3
        · exact absurd h2.symm (hexDigitChar_ne_pipe _)
        rcases List.mem_cons.mp hb3 with h3 | hb4
        · exact absurd h3.symm (hexDigitChar_ne_pipe _)
        · simp at hb4
    · exact ih hm

/-! ## Claim C2: deep-link round trip -/

theorem isDigit_ne_pipe_percent {c : Char} (h : c.isDigit = true) :
    c ≠ '|' ∧ c ≠ '%' := by
  have hb := isDigit_toNat_bounds h
  constructor
  · intro e; rw [e] at hb; simp at hb
  · intro e; rw [e] at hb; simp at hb

/-- C2: the deep-link codec round-trips: percent-encoding the query, joining
query, page and the placeholder-encoded filters with `|`, base64url-encoding
the UTF-8 bytes, then decoding (base64url-decode, split on `|`,
percent-decode, `parseInt`, `-` back to absent) recovers the query text, page
and filters exactly, for every query and valid SearchState. -/
theorem C2_deep_link_roundtrip (query : List Char) (page : Int) (f : SearchFilters)
    (hp : 0 ≤ page) (hf : validFilters f = true) :
    deepLinkDecode (deepLinkEncode query page f) = ⟨query, page, f⟩ := by
  obtain ⟨hl, hy, hq⟩ := validFilters_good hf
  obtain ⟨⟨_, hlp, hlpc⟩, hld⟩ := orDash_of_good hl
  obtain ⟨⟨_, hyp, hypc⟩, hyd⟩ := orDash_of_good hy
  obtain ⟨⟨_, hqp, hqpc⟩, hqd⟩ := orDash_of_good hq
  have hpage : intToChars page = natToChars page.toNat := intToChars_nonneg hp
  have hpp : '|' ∉ intToChars page := by
    rw [hpage]
    intro hm
    exact absurd rfl (isDigit_ne_pipe_percent (natToChars_digits '|' hm)).1
  have hppc : '%' ∉ intToChars page := by
    rw [hpage]
    intro hm
    exact absurd rfl (isDigit_ne_pipe_percent (natToChars_digits '%' hm)).2
  have hquery : '|' ∉ encodeURIComponent query := pipe_not_mem_encodeURIComponent query
  unfold deepLinkEncode deepLinkDecode
  rw [base64url_roundtrip _ (utf8Encode_lt _), utf8Decode_utf8Encode]
  have hsplit : splitOnC '|' (encodeURIComponent query ++ '|' :: intToChars page
      ++ '|' :: orDash f.file_lang ++ '|' :: orDash f.year ++ '|' :: orDash f.quality)
      = [encodeURIComponent query, intToChars page, orDash f.file_lang,
        orDash f.year, orDash f.quality] := by
    simp only [List.append_assoc, List.cons_append]
    rw [splitOnC_append _ hquery, splitOnC_append _ hpp, splitOnC_append _ hlp,
      splitOnC_append _ hyp, splitOnC_sepFree hqp]
  simp only [hsplit, List.map]
  rw [decodeURIComponent_encodeURIComponent, decodeURIComponent_no_percent hppc,
    decodeURIComponent_no_percent hlpc, decodeURIComponent_no_percent hypc,
    decodeURIComponent_no_percent hqpc]
  simp only [List.headD, List.getD, List.getElem?_cons_succ, List.getElem?_cons_zero,
    List.get?_cons_succ, List.get?_cons_zero, Option.getD_some]
  rw [hld, hyd, hqd, hpage, jsParseIntOrZero_natToChars, Int.toNat_of_nonneg hp]

/-- Witness for C2 at a concrete shareable link: query with a space and a
pipe, page 1, Hindi + 720p filters. -/
theorem C2_deep_link_roundtrip_witness :
    deepLinkDecode (deepLinkEncode ("dune|part 2".data) 1
      ⟨some ("HI".data), none, some ("720p".data)⟩)
      = ⟨"dune|part 2".data, 1, ⟨some ("HI".data), none, some ("720p".data)⟩⟩ :=
  C2_deep_link_roundtrip ("dune|part 2".data) 1
    ⟨some ("HI".data), none, some ("720p".data)⟩ (by decide) (by decide)
